import Mathlib

/-!
Shallow embedding of the data-retrieval module `fda/getdata.py` and proofs
about the claims of its specification.

External collaborators are modelled explicitly:
  - the HTTP layer is a parameter giving the parsed JSON body a URL returns;
  - the local filesystem is a parameter giving the parsed JSON content of a
    file name; `none` models a missing file (FileNotFoundError);
  - pandas DataFrames are modelled by the structure `DF` below: a column
    label list plus index-carrying rows of cells.
Every operation additionally returns the list of I/O actions it performed,
so that claims of the form "raised before any I/O" are statable.
-/

namespace Fda

/-- Python truthiness of an optional string argument: `None` and the empty
string are falsy, every other string is truthy. -/
def truthy : Option String → Bool
  | none => false
  | some s => !s.isEmpty

/-- Model of `str.zfill(w)` for strings of digits: left-pad with the
character 0 up to width `w`. -/
def zfill (w : Nat) (s : String) : String :=
  String.mk (List.replicate (w - s.length) '0') ++ s

/-- A cell of a DataFrame: the JSON numbers and strings that occur in the
tables this module builds. -/
inductive Cell where
  | num (n : Nat)
  | str (s : String)
deriving DecidableEq, Repr

/-- Model of `astype(str)` on a cell. -/
def Cell.asString : Cell → String
  | .num n => toString n
  | .str s => s

/-- Python string comparison on character lists: code-point lexicographic,
a proper prefix preceding its extensions. -/
def charListLe : List Char → List Char → Bool
  | [], _ => true
  | _ :: _, [] => false
  | a :: as, b :: bs =>
    if a.toNat < b.toNat then true
    else if b.toNat < a.toNat then false
    else charListLe as bs

/-- Python string comparison, as pandas applies it when sorting a column of
strings. -/
def strLe (a b : String) : Bool :=
  charListLe a.data b.data

/-- Comparison used by `sort_values`: numbers compare numerically, strings
lexicographically. The claims only sort homogeneous columns; the relative
order of the two constructors is fixed arbitrarily to keep the relation
total. -/
def Cell.le : Cell → Cell → Bool
  | .num a, .num b => decide (a ≤ b)
  | .num _, .str _ => true
  | .str _, .num _ => false
  | .str a, .str b => strLe a b

/-- The errors the module can raise. `usageError` stands for the
AssertionError and ValueError raised on bad arguments, `ioError` for
FileNotFoundError, `parseError` for JSON or DataFrame shape errors, and
`nameError` for the unbound-local NameError of an uninitialized variable. -/
inductive Err where
  | usageError
  | ioError
  | parseError
  | nameError
deriving DecidableEq, Repr

instance {ε α : Type} [DecidableEq ε] [DecidableEq α] :
    DecidableEq (Except ε α) := fun x y =>
  match x, y with
  | .ok a, .ok b =>
    if h : a = b then .isTrue (by rw [h])
    else .isFalse (fun hc => h (Except.ok.inj hc))
  | .ok _, .error _ => .isFalse (fun hc => Except.noConfusion hc)
  | .error _, .ok _ => .isFalse (fun hc => Except.noConfusion hc)
  | .error e, .error f =>
    if h : e = f then .isTrue (by rw [h])
    else .isFalse (fun hc => h (Except.error.inj hc))

/-- The observable I/O actions: reading a local file, issuing an HTTP GET
with a User-Agent header value and query parameters, and sleeping. -/
inductive IOAction where
  | fileRead (name : String)
  | httpGet (url : String) (userAgent : Option String) (params : List (String × String))
  | sleep (ms : Nat)
deriving DecidableEq, Repr

/-- Whether an I/O action is an HTTP request. -/
def IOAction.isHttp : IOAction → Bool
  | .httpGet _ _ _ => true
  | _ => false

/-! ### DataFrame model -/

/-- A pandas DataFrame: ordered column labels and rows, each row carrying
its index and its cells aligned with the column list. -/
structure DF where
  cols : List String
  rows : List (Nat × List Cell)
deriving DecidableEq, Repr

/-- DataFrame built from a list of records sharing one column layout; the
default index is 0,1,2,... -/
def DF.ofRecords (cols : List String) (recs : List (List Cell)) : DF :=
  ⟨cols, recs.enum⟩

/-- Column extraction `df[name]`. The claims only extract labels that are
present; the missing-label branch (a pandas KeyError) returns the empty
column and is never reached in any theorem below. -/
def DF.getCol (df : DF) (name : String) : List Cell :=
  match df.cols.findIdx? (· == name) with
  | some i => df.rows.map (fun r => r.2.getD i (Cell.str ""))
  | none => []

/-- Column assignment `df[name] = vals`: replace the column when the label
exists, otherwise append it as a new rightmost column. -/
def DF.assign (df : DF) (name : String) (vals : List Cell) : DF :=
  match df.cols.findIdx? (· == name) with
  | some i => ⟨df.cols, (df.rows.zip vals).map (fun rv => (rv.1.1, rv.1.2.set i rv.2))⟩
  | none => ⟨df.cols ++ [name], (df.rows.zip vals).map (fun rv => (rv.1.1, rv.1.2 ++ [rv.2]))⟩

/-- Positional relabeling `df.columns = names`. -/
def DF.setCols (df : DF) (names : List String) : DF :=
  ⟨names, df.rows⟩

/-- Projection of one row of cells onto a list of column labels. The
missing-label branch (a pandas KeyError) fills an arbitrary cell and is
never reached in any theorem below. -/
def DF.projectRow (cols names : List String) (cells : List Cell) : List Cell :=
  names.map (fun n =>
    match cols.findIdx? (· == n) with
    | some i => cells.getD i (Cell.str "")
    | none => Cell.str "")

/-- Column selection `df.loc[:, names]`. -/
def DF.select (df : DF) (names : List String) : DF :=
  ⟨names, df.rows.map (fun r => (r.1, DF.projectRow df.cols names r.2))⟩

/-- The cell a row holds in a named column, used as the sort key. -/
def DF.keyCell (cols : List String) (name : String) (cells : List Cell) : Cell :=
  match cols.findIdx? (· == name) with
  | some i => cells.getD i (Cell.str "")
  | none => Cell.str ""

/-- Row sorting `df.sort_values(by=name)`: rows are rearranged into
non-decreasing key order, keeping their original indices. The sort kind is
irrelevant to the contract, which leaves the order of ties unspecified. The
claims only sort by labels that are present. -/
def DF.sortValues (df : DF) (name : String) : DF :=
  ⟨df.cols, df.rows.insertionSort (fun a b =>
    Cell.le (DF.keyCell df.cols name a.2) (DF.keyCell df.cols name b.2) = true)⟩

/-- Index reset `df.reset_index(drop=True)`: keep the rows in their current
order and renumber them 0,1,2,... -/
def DF.resetIndex (df : DF) : DF :=
  ⟨df.cols, (df.rows.map Prod.snd).enum⟩

/-! ### Registry Lister: `get_sec_companies` -/

/-- One value-record of the company-ticker JSON mapping. -/
structure CompanyRec where
  cik_str : Nat
  ticker : String
  title : String
deriving DecidableEq, Repr

/-- Embedding of `get_sec_companies`. The HTTP layer is modelled by `resp`,
the JSON object the company-ticker endpoint returns: a mapping from opaque
keys to value-records. The double `json_normalize` discards the keys and
builds a DataFrame with columns cik_str, ticker, title from the
value-records in mapping order. Note that the source sets the header to the
string literal email, not to the `email` argument, and that the positional
relabeling on the next line renames the original cik_str column to cik and
the zero-filled column to cik_long. -/
def get_sec_companies (email : String) (resp : List (String × CompanyRec)) :
    DF × List IOAction :=
  let headers : Option String := some "email"
  let url := "https://www.sec.gov/files/company_tickers.json"
  let tickers_cik := DF.ofRecords ["cik_str", "ticker", "title"]
    (resp.map (fun kv => [Cell.num kv.2.cik_str, Cell.str kv.2.ticker, Cell.str kv.2.title]))
  let tickers_cik := tickers_cik.assign "cik"
    ((tickers_cik.getCol "cik_str").map (fun c => Cell.str (zfill 10 c.asString)))
  let tickers_cik := tickers_cik.setCols ["cik", "ticker", "title", "cik_long"]
  (tickers_cik.select ["ticker", "title", "cik", "cik_long"],
   [IOAction.httpGet url headers []])

/-- Modelled from the spec: the registry row the specification describes
for one value-record, in output column order ticker, title, cik, cik_long,
with cik the 10-wide zero-padded string form of cik_str and cik_long the
unpadded string form. Used only to exhibit the divergence of the code. -/
def registryRowSpec (r : CompanyRec) : List Cell :=
  [Cell.str r.ticker, Cell.str r.title,
   Cell.str (zfill 10 (toString r.cik_str)),
   Cell.str (toString r.cik_str)]

/-! ### Price Series Fetcher: `get_fmp_stock_data` -/

/-- A parsed provider response: the records of its historical array, as a
column layout shared by the records plus one cell list per record. `none`
models a transport failure or a response without a historical key, both of
which raise before a DataFrame is built. -/
structure FmpResp where
  histCols : List String
  histRecs : List (List Cell)
deriving DecidableEq, Repr

/-- The six output column labels selected by the final loc of
`get_fmp_stock_data`. -/
def fmpOutCols : List String :=
  ["open", "high", "low", "close", "adjClose", "volume"]

/-- Embedding of `get_fmp_stock_data`. The HTTP layer is modelled by
`resp`, the parsed historical array the endpoint returns for the one GET
the function issues. The URL is built before the precondition check, but no
I/O happens before it; on a precondition failure the action trace is empty. -/
def get_fmp_stock_data (apikey ticker : String)
    (start_date end_date : Option String) (resp : Option FmpResp) :
    Except Err DF × List IOAction :=
  let url := "https://financialmodelingprep.com/api/v3/historical-price-full/" ++ ticker
  if truthy end_date && !truthy start_date then
    (.error .usageError, [])
  else
    let parameters := [("apikey", apikey)]
      ++ (if truthy start_date then [("from", start_date.getD "")] else [])
      ++ (if truthy end_date then [("to", end_date.getD "")] else [])
    let trace := [IOAction.httpGet url none parameters]
    match resp with
    | none => (.error .parseError, trace)
    | some body =>
      let ts := DF.ofRecords body.histCols body.histRecs
      let ts := ts.sortValues "date"
      let ts := ts.resetIndex
      (.ok (ts.select fmpOutCols), trace)

/-! ### Filing History Assembler: `get_seccompany_filings` -/

/-- One filing record: the acceptanceDateTime timestamp used for ordering,
plus the remaining regulator-defined fields. -/
structure FilingRow where
  acceptanceDateTime : String
  fields : List (String × Cell)
deriving DecidableEq, Repr

/-- A parsed submission JSON document: either a primary document holding
the filings.recent page and the filings.files shard descriptor names, or an
overflow shard page holding further filing records. -/
inductive SubDoc where
  | main (recent : List FilingRow) (files : List String)
  | page (rows : List FilingRow)
deriving DecidableEq, Repr

/-- The external world of the filing assembler: parsed JSON content by
local file path and by URL; `none` is a missing file or a failed request. -/
structure FilingsEnv where
  fileAt : String → Option SubDoc
  urlAt : String → Option SubDoc

/-- Model of `os.path.join` for the paths this module builds. -/
def joinPath (dir name : String) : String :=
  dir ++ "/" ++ name

/-- A filing page as a DataFrame-like table: rows paired with the default
index 0,1,2,... that `pd.DataFrame` gives them. -/
def filingsOf (rows : List FilingRow) : List (Nat × FilingRow) :=
  rows.enum

/-- The comparison `sort_values(by=acceptanceDateTime)` uses on indexed
filing rows: lexicographic on the timestamp strings. -/
def filingRecLe (a b : Nat × FilingRow) : Prop :=
  strLe a.2.acceptanceDateTime b.2.acceptanceDateTime = true

instance : DecidableRel filingRecLe :=
  fun a b =>
    instDecidableEqBool (strLe a.2.acceptanceDateTime b.2.acceptanceDateTime) true

/-- Merge and normalize step shared by both modes: sort the concatenated
table ascending by acceptanceDateTime, then reset the index. The sort kind
is irrelevant to the contract, which leaves the order of ties unspecified. -/
def normalizeFilings (acc : List (Nat × FilingRow)) : List (Nat × FilingRow) :=
  ((acc.insertionSort filingRecLe).map Prod.snd).enum

/-- Local-mode shard loop: open each descriptor name in the submission
directory, parse it as a page table and concatenate it, keeping the page
indices as `pd.concat` does. A missing file is fatal; a document without
the page shape is a parse failure. -/
def loadShardsLocal (env : FilingsEnv) (dir : String) :
    List String → List (Nat × FilingRow) → List IOAction →
    Except Err (List (Nat × FilingRow)) × List IOAction
  | [], acc, tr => (.ok acc, tr)
  | name :: rest, acc, tr =>
    let path := joinPath dir name
    match env.fileAt path with
    | some (.page rows) =>
        loadShardsLocal env dir rest (acc ++ filingsOf rows) (tr ++ [IOAction.fileRead path])
    | some (.main _ _) => (.error .parseError, tr ++ [IOAction.fileRead path])
    | none => (.error .ioError, tr ++ [IOAction.fileRead path])

/-- Live-mode shard loop: GET each shard URL with the identity header,
concatenate the parsed page, and sleep 100 ms after each fetch. A failed
request is fatal and aborts the whole operation. -/
def loadShardsLive (env : FilingsEnv) (headers : Option String) :
    List String → List (Nat × FilingRow) → List IOAction →
    Except Err (List (Nat × FilingRow)) × List IOAction
  | [], acc, tr => (.ok acc, tr)
  | name :: rest, acc, tr =>
    let url := "https://data.sec.gov/submissions/" ++ name
    match env.urlAt url with
    | some (.page rows) =>
        loadShardsLive env headers rest (acc ++ filingsOf rows)
          (tr ++ [IOAction.httpGet url headers [], IOAction.sleep 100])
    | some (.main _ _) => (.error .parseError, tr ++ [IOAction.httpGet url headers []])
    | none => (.error .ioError, tr ++ [IOAction.httpGet url headers []])

/-- Embedding of `get_seccompany_filings`. The assert on the cik length and
the check that a data source was supplied both precede any I/O; the Python
truthiness of the optional arguments is kept, so an empty string behaves
like an absent argument. When `submission_dir` is truthy the local branch
runs and no HTTP request is issued. -/
def get_seccompany_filings (cik : String) (submission_dir email : Option String)
    (env : FilingsEnv) :
    Except Err (List (Nat × FilingRow)) × List IOAction :=
  if cik.length ≠ 10 then (.error .usageError, []) else
  if !truthy submission_dir && !truthy email then (.error .usageError, []) else
  if truthy submission_dir then
    let dir := submission_dir.getD ""
    let path := joinPath dir ("CIK" ++ cik ++ ".json")
    match env.fileAt path with
    | none => (.error .ioError, [IOAction.fileRead path])
    | some (.page _) => (.error .parseError, [IOAction.fileRead path])
    | some (.main recent files) =>
      match loadShardsLocal env dir files (filingsOf recent) [IOAction.fileRead path] with
      | (.ok acc, tr) => (.ok (normalizeFilings acc), tr)
      | (.error e, tr) => (.error e, tr)
  else
    let url := "https://data.sec.gov/submissions/CIK" ++ cik ++ ".json"
    match env.urlAt url with
    | none => (.error .ioError, [IOAction.httpGet url email []])
    | some (.page _) => (.error .parseError, [IOAction.httpGet url email []])
    | some (.main recent files) =>
      match loadShardsLive env email files (filingsOf recent) [IOAction.httpGet url email []] with
      | (.ok acc, tr) => (.ok (normalizeFilings acc), tr)
      | (.error e, tr) => (.error e, tr)

/-! ### Entity Profile Extractor: `get_sec_company_information` -/

/-- One row of the registry table the extractor consumes, in the shape
produced by the Registry Lister; only cik_long is read by the extractor. -/
structure RegRow where
  ticker : String
  title : String
  cik : String
  cik_long : String
deriving DecidableEq, Repr

/-- A value of a metadata JSON document: a scalar or an array. -/
inductive JVal where
  | scalar (c : Cell)
  | arr (cs : List Cell)
deriving DecidableEq, Repr

/-- A parsed per-entity metadata document: its keyed values in document
order. -/
abbrev MetaDoc := List (String × JVal)

/-- The field allowlist `get_keys` of the extractor. -/
def get_keys : List String :=
  ["cik", "entityType", "sic", "sicDescription", "name", "tickers",
   "exchanges", "fiscalYearEnd"]

/-- The metadata document restricted to the allowlisted keys, in document
order, as the dict comprehension of the source builds it. -/
def metaFiltered (doc : MetaDoc) : MetaDoc :=
  doc.filter (fun kv => get_keys.contains kv.1)

/-- Row count `pd.DataFrame(dict).shape[0]`: the common length of the
array-valued entries, scalars broadcasting to it; an empty dict gives an
empty frame; a dict of only scalars, or arrays of unequal length, raise a
pandas ValueError, modelled as a parse error. -/
def dfRows (d : MetaDoc) : Except Err Nat :=
  let lens := d.filterMap (fun kv =>
    match kv.2 with
    | .arr cs => some cs.length
    | .scalar _ => none)
  match lens with
  | [] => if d.isEmpty then .ok 0 else .error .parseError
  | n :: rest => if rest.all (· == n) then .ok n else .error .parseError

/-- The first row `iloc[0]` of the frame built from the filtered document:
for each kept key, the scalar itself or the first array element. The array
head exists whenever the row count is positive. -/
def profileFields (doc : MetaDoc) : List (String × Cell) :=
  (metaFiltered doc).map (fun kv =>
    (kv.1, match kv.2 with
           | .scalar c => c
           | .arr cs => cs.headD (Cell.str "")))

/-- One row of the profile output: the iloc[0] fields plus the appended
has_multiple_symbols column. -/
structure ProfileRow where
  fields : List (String × Cell)
  has_multiple_symbols : Bool
deriving DecidableEq, Repr

/-- Scan behind `Series.duplicated()` with the default keep=first: collect
the cik_long of every row whose cik_long already occurred in an earlier
row, the earlier occurrences being accumulated in `seen`. -/
def dupScan (seen : List String) : List RegRow → List String
  | [] => []
  | r :: rest =>
    if r.cik_long ∈ seen then r.cik_long :: dupScan seen rest
    else dupScan (r.cik_long :: seen) rest

/-- The values array `ciks_with_multiple_tickers` of the source. -/
def dupCikLongs (rows : List RegRow) : List String :=
  dupScan [] rows

/-- Scan behind the duplicated()==False filter: keep the first row of each
cik_long, in original order. -/
def uniqScan (seen : List String) : List RegRow → List RegRow
  | [] => []
  | r :: rest =>
    if r.cik_long ∈ seen then uniqScan seen rest
    else r :: uniqScan (r.cik_long :: seen) rest

/-- The working set `unique_cik_companies` of the source. -/
def unique_cik_companies (rows : List RegRow) : List RegRow :=
  uniqScan [] rows

/-- The metadata file name the extractor opens for a registry row. The
submission directory is modelled as the map from these names to parsed
documents. -/
def metaFile (r : RegRow) : String :=
  "CIK" ++ r.cik_long ++ ".json"

/-- The profile row the loop body appends for a registry row whose document
is usable: its iloc[0] fields and has_multiple_symbols set by membership of
its cik_long in the duplicated values. -/
def mkProfile (fs : String → Option MetaDoc) (dups : List String) (r : RegRow) :
    ProfileRow :=
  ⟨profileFields ((fs (metaFile r)).getD []), decide (r.cik_long ∈ dups)⟩

/-- Loop of `get_sec_company_information` over the unique working set:
open the metadata document of each row (a missing file raises), build the
filtered frame, skip the entity and count it when the frame has no rows,
otherwise append its first row as the profile. -/
def profileLoop (fs : String → Option MetaDoc) (dups : List String) :
    List RegRow → List ProfileRow → Nat → Except Err (List ProfileRow × Nat)
  | [], acc, no_info => .ok (acc, no_info)
  | r :: rest, acc, no_info =>
    match fs (metaFile r) with
    | none => .error .ioError
    | some doc =>
      match dfRows (metaFiltered doc) with
      | .error e => .error e
      | .ok 0 => profileLoop fs dups rest acc (no_info + 1)
      | .ok (_ + 1) => profileLoop fs dups rest (acc ++ [mkProfile fs dups r]) no_info

/-- Embedding of `get_sec_company_information`. The submission directory is
the map `fs` from file name to parsed document. When no entity was ever
appended, the variable company_info of the source is still unbound at the
final reset_index call, which raises a NameError; otherwise the result is
the accumulated profile table with its index reset, together with the
skipped-entity count the source reports on its observability channel. -/
def get_sec_company_information (sec_companies : List RegRow)
    (fs : String → Option MetaDoc) :
    Except Err (List (Nat × ProfileRow) × Nat) :=
  match profileLoop fs (dupCikLongs sec_companies) (unique_cik_companies sec_companies) [] 0 with
  | .error e => .error e
  | .ok (acc, no_info) =>
    if acc.isEmpty then .error .nameError
    else .ok (acc.enum, no_info)

/-- Whether the metadata document of a registry row is present and yields a
positive filtered row count: the condition under which the loop appends a
profile for it. -/
def metaUsable (fs : String → Option MetaDoc) (r : RegRow) : Bool :=
  match fs (metaFile r) with
  | none => false
  | some doc =>
    match dfRows (metaFiltered doc) with
    | .ok (_ + 1) => true
    | _ => false

/-- The rows of the unique working set whose document is usable: the
entities that contribute one profile row each. -/
def usableFirsts (sec_companies : List RegRow) (fs : String → Option MetaDoc) :
    List RegRow :=
  (unique_cik_companies sec_companies).filter (metaUsable fs)

/-- Whether the metadata document of a registry row, when its file is
present, builds a frame without a pandas shape error; a missing file also
satisfies this, so the predicate isolates parse failures from missing
files. -/
def metaParses (fs : String → Option MetaDoc) (r : RegRow) : Bool :=
  match fs (metaFile r) with
  | none => true
  | some doc =>
    match dfRows (metaFiltered doc) with
    | .ok _ => true
    | .error _ => false

/-- Whether the metadata document of a registry row is present and builds a
frame without a pandas shape error, of any row count. -/
def metaPresentOk (fs : String → Option MetaDoc) (r : RegRow) : Bool :=
  match fs (metaFile r) with
  | none => false
  | some doc =>
    match dfRows (metaFiltered doc) with
    | .ok _ => true
    | .error _ => false

/-- Whether the metadata document of a registry row is present but yields
zero extractable rows after filtering to the known field set: the skippable
condition of the extractor. -/
def metaEmptyRecord (fs : String → Option MetaDoc) (r : RegRow) : Bool :=
  match fs (metaFile r) with
  | none => false
  | some doc => decide (dfRows (metaFiltered doc) = .ok 0)

/-! ### Ordering and indexing lemmas -/

lemma charListLe_cons (a b : Char) (as bs : List Char) :
    charListLe (a :: as) (b :: bs) = true ↔
      a.toNat < b.toNat ∨ (a.toNat = b.toNat ∧ charListLe as bs = true) := by
  simp only [charListLe]
  split_ifs with h1 h2
  · simp [h1]
  · simp
    omega
  · have heq : a.toNat = b.toNat := by omega
    simp [heq, h1]

lemma charListLe_trans (as : List Char) :
    ∀ bs cs, charListLe as bs = true → charListLe bs cs = true →
      charListLe as cs = true := by
  induction as with
  | nil => intro bs cs _ _; rfl
  | cons a as ih =>
    intro bs cs hab hbc
    match bs, cs with
    | [], _ => simp [charListLe] at hab
    | _ :: _, [] => simp [charListLe] at hbc
    | b :: bs, c :: cs =>
      rw [charListLe_cons] at hab hbc ⊢
      rcases hab with h1 | ⟨h1, hab⟩ <;> rcases hbc with h2 | ⟨h2, hbc⟩
      · exact Or.inl (by omega)
      · exact Or.inl (by omega)
      · exact Or.inl (by omega)
      · exact Or.inr ⟨by omega, ih bs cs hab hbc⟩

lemma charListLe_total (as : List Char) :
    ∀ bs, (charListLe as bs || charListLe bs as) = true := by
  induction as with
  | nil => intro bs; rfl
  | cons a as ih =>
    intro bs
    cases bs with
    | nil => rfl
    | cons b bs =>
      rw [Bool.or_eq_true, charListLe_cons, charListLe_cons]
      rcases Nat.lt_trichotomy a.toNat b.toNat with h | h | h
      · exact Or.inl (Or.inl h)
      · rcases Bool.or_eq_true_iff.mp (ih bs) with h' | h'
        · exact Or.inl (Or.inr ⟨h, h'⟩)
        · exact Or.inr (Or.inr ⟨h.symm, h'⟩)
      · exact Or.inr (Or.inl h)

lemma strLe_trans (a b c : String) (hab : strLe a b = true)
    (hbc : strLe b c = true) : strLe a c = true :=
  charListLe_trans a.data b.data c.data hab hbc

lemma strLe_total (a b : String) : (strLe a b || strLe b a) = true :=
  charListLe_total a.data b.data

lemma Cell.le_trans :
    ∀ a b c : Cell, Cell.le a b = true → Cell.le b c = true → Cell.le a c = true
  | .num _, .num _, .num _, hab, hbc => by
    simp only [Cell.le, decide_eq_true_eq] at *; omega
  | .num _, _, .str _, _, _ => by simp [Cell.le]
  | .num _, .str _, .num _, _, hbc => by simp [Cell.le] at hbc
  | .str _, .num _, _, hab, _ => by simp [Cell.le] at hab
  | .str _, .str _, .num _, _, hbc => by simp [Cell.le] at hbc
  | .str x, .str y, .str z, hab, hbc => by
    simp only [Cell.le] at *
    exact strLe_trans x y z hab hbc

lemma Cell.le_total_bool : ∀ a b : Cell, (Cell.le a b || Cell.le b a) = true
  | .num x, .num y => by
    simp only [Cell.le, Bool.or_eq_true, decide_eq_true_eq]; omega
  | .num _, .str _ => by simp [Cell.le]
  | .str _, .num _ => by simp [Cell.le]
  | .str x, .str y => by
    simp only [Cell.le]
    exact strLe_total x y

lemma map_fst_enum_map {α β : Type} (X : List α) (g : α → β) :
    (X.enum.map (fun r => (r.1, g r.2))).map Prod.fst = List.range X.length := by
  rw [List.map_map]
  have h : (Prod.fst ∘ fun r : Nat × α => (r.1, g r.2)) = Prod.fst := rfl
  rw [h, List.enum_map_fst]

lemma map_snd_enum_map {α β : Type} (X : List α) (g : α → β) :
    (X.enum.map (fun r => (r.1, g r.2))).map Prod.snd = X.map g := by
  rw [List.map_map]
  have h : (Prod.snd ∘ fun r : Nat × α => (r.1, g r.2)) = g ∘ Prod.snd := rfl
  rw [h, ← List.map_map, List.enum_map_snd]

/-! ### Profile extractor lemmas -/

lemma profileLoop_ok_of_present (fs : String → Option MetaDoc)
    (dups : List String) :
    ∀ (rows : List RegRow) (acc : List ProfileRow) (k : Nat),
      (∀ r ∈ rows, metaPresentOk fs r = true) →
      profileLoop fs dups rows acc k =
        .ok (acc ++ (rows.filter (metaUsable fs)).map (mkProfile fs dups),
             k + rows.countP (fun r => !metaUsable fs r)) := by
  intro rows
  induction rows with
  | nil => intro acc k _; simp [profileLoop]
  | cons r rest ih =>
    intro acc k h
    have hr := h r (List.mem_cons_self _ _)
    have hrest := fun x hx => h x (List.mem_cons_of_mem _ hx)
    cases hfs : fs (metaFile r) with
    | none => simp [metaPresentOk, hfs] at hr
    | some doc =>
      cases hdf : dfRows (metaFiltered doc) with
      | error e => simp [metaPresentOk, hfs, hdf] at hr
      | ok n =>
        cases n with
        | zero =>
          have husable : metaUsable fs r = false := by
            simp [metaUsable, hfs, hdf]
          simp only [profileLoop, hfs, hdf]
          rw [ih acc (k + 1) hrest]
          simp only [List.filter_cons, husable, Bool.false_eq_true, if_false,
            List.countP_cons, Bool.not_false, if_true, Except.ok.injEq,
            Prod.mk.injEq, true_and]
          omega
        | succ m =>
          have husable : metaUsable fs r = true := by
            simp [metaUsable, hfs, hdf]
          simp only [profileLoop, hfs, hdf]
          rw [ih (acc ++ [mkProfile fs dups r]) k hrest]
          simp [List.filter_cons, husable, List.countP_cons]

lemma profileLoop_ok_inv (fs : String → Option MetaDoc) (dups : List String) :
    ∀ (rows : List RegRow) (acc : List ProfileRow) (k : Nat)
      (out : List ProfileRow) (m : Nat),
      profileLoop fs dups rows acc k = .ok (out, m) →
      out = acc ++ (rows.filter (metaUsable fs)).map (mkProfile fs dups) := by
  intro rows
  induction rows with
  | nil =>
    intro acc k out m h
    simp only [profileLoop, Except.ok.injEq, Prod.mk.injEq] at h
    simp [← h.1]
  | cons r rest ih =>
    intro acc k out m h
    cases hfs : fs (metaFile r) with
    | none =>
      simp only [profileLoop, hfs] at h
      exact Except.noConfusion h
    | some doc =>
      cases hdf : dfRows (metaFiltered doc) with
      | error e =>
        simp only [profileLoop, hfs, hdf] at h
        exact Except.noConfusion h
      | ok n =>
        cases n with
        | zero =>
          simp only [profileLoop, hfs, hdf] at h
          have husable : metaUsable fs r = false := by
            simp [metaUsable, hfs, hdf]
          rw [ih acc (k + 1) out m h]
          simp [List.filter_cons, husable]
        | succ m' =>
          simp only [profileLoop, hfs, hdf] at h
          have husable : metaUsable fs r = true := by
            simp [metaUsable, hfs, hdf]
          rw [ih (acc ++ [mkProfile fs dups r]) k out m h]
          simp [List.filter_cons, husable]

lemma profileLoop_missing (fs : String → Option MetaDoc) (dups : List String) :
    ∀ (rows : List RegRow) (acc : List ProfileRow) (k : Nat),
      (∀ r ∈ rows, metaParses fs r = true) →
      (∃ r ∈ rows, fs (metaFile r) = none) →
      profileLoop fs dups rows acc k = .error .ioError := by
  intro rows
  induction rows with
  | nil => intro acc k _ hex; simp at hex
  | cons r rest ih =>
    intro acc k hall hex
    cases hfs : fs (metaFile r) with
    | none => simp [profileLoop, hfs]
    | some doc =>
      have hparses := hall r (List.mem_cons_self _ _)
      have hex' : ∃ x ∈ rest, fs (metaFile x) = none := by
        rcases hex with ⟨x, hx, hxnone⟩
        rcases List.mem_cons.mp hx with rfl | hx'
        · rw [hfs] at hxnone; cases hxnone
        · exact ⟨x, hx', hxnone⟩
      have hallrest := fun x hx => hall x (List.mem_cons_of_mem _ hx)
      cases hdf : dfRows (metaFiltered doc) with
      | error e => simp [metaParses, hfs, hdf] at hparses
      | ok n =>
        cases n with
        | zero =>
          simp only [profileLoop, hfs, hdf]
          exact ih acc (k + 1) hallrest hex'
        | succ m =>
          simp only [profileLoop, hfs, hdf]
          exact ih (acc ++ [mkProfile fs dups r]) k hallrest hex'

lemma profileLoop_all_empty (fs : String → Option MetaDoc) (dups : List String) :
    ∀ (rows : List RegRow) (acc : List ProfileRow) (k : Nat),
      (∀ r ∈ rows, metaEmptyRecord fs r = true) →
      profileLoop fs dups rows acc k = .ok (acc, k + rows.length) := by
  intro rows
  induction rows with
  | nil => intro acc k _; simp [profileLoop]
  | cons r rest ih =>
    intro acc k h
    have hr := h r (List.mem_cons_self _ _)
    cases hfs : fs (metaFile r) with
    | none => simp [metaEmptyRecord, hfs] at hr
    | some doc =>
      have hdf : dfRows (metaFiltered doc) = .ok 0 := by
        simpa [metaEmptyRecord, hfs] using hr
      simp only [profileLoop, hfs, hdf]
      rw [ih acc (k + 1) (fun x hx => h x (List.mem_cons_of_mem _ hx))]
      simp only [List.length_cons, Except.ok.injEq, Prod.mk.injEq, true_and]
      omega

lemma mem_dupScan_iff (c : String) :
    ∀ (rows : List RegRow) (seen : List String),
      c ∈ dupScan seen rows ↔
        ((c ∈ seen ∧ 1 ≤ rows.countP (fun x => x.cik_long == c)) ∨
         2 ≤ rows.countP (fun x => x.cik_long == c)) := by
  intro rows
  induction rows with
  | nil => intro seen; simp [dupScan]
  | cons r rest ih =>
    intro seen
    by_cases hm : r.cik_long ∈ seen
    · by_cases hc : r.cik_long = c
      · subst hc
        rw [dupScan, if_pos hm]
        have hcnt : List.countP (fun x => x.cik_long == r.cik_long) (r :: rest) =
            List.countP (fun x => x.cik_long == r.cik_long) rest + 1 := by
          simp [List.countP_cons]
        rw [hcnt]
        apply iff_of_true
        · exact List.mem_cons_self _ _
        · exact Or.inl ⟨hm, by omega⟩
      · rw [dupScan, if_pos hm]
        have hcnt : List.countP (fun x => x.cik_long == c) (r :: rest) =
            List.countP (fun x => x.cik_long == c) rest := by
          simp [List.countP_cons, hc]
        rw [hcnt, List.mem_cons]
        constructor
        · rintro (heq | hmem)
          · exact absurd heq.symm hc
          · exact (ih seen).mp hmem
        · intro hr
          exact Or.inr ((ih seen).mpr hr)
    · by_cases hc : r.cik_long = c
      · subst hc
        rw [dupScan, if_neg hm, ih (r.cik_long :: seen)]
        have hcnt : List.countP (fun x => x.cik_long == r.cik_long) (r :: rest) =
            List.countP (fun x => x.cik_long == r.cik_long) rest + 1 := by
          simp [List.countP_cons]
        rw [hcnt]
        constructor
        · rintro (⟨_, hc1⟩ | hc2)
          · exact Or.inr (by omega)
          · exact Or.inr (by omega)
        · rintro (⟨hmem, _⟩ | hc2)
          · exact absurd hmem hm
          · exact Or.inl ⟨List.mem_cons_self _ _, by omega⟩
      · rw [dupScan, if_neg hm, ih (r.cik_long :: seen)]
        have hcnt : List.countP (fun x => x.cik_long == c) (r :: rest) =
            List.countP (fun x => x.cik_long == c) rest := by
          simp [List.countP_cons, hc]
        have hmem_iff : c ∈ r.cik_long :: seen ↔ c ∈ seen := by
          rw [List.mem_cons]
          constructor
          · rintro (heq | hs)
            · exact absurd heq.symm hc
            · exact hs
          · exact Or.inr
        rw [hcnt, hmem_iff]

lemma mem_dupCikLongs_iff (rows : List RegRow) (c : String) :
    c ∈ dupCikLongs rows ↔
      2 ≤ rows.countP (fun x => x.cik_long == c) := by
  rw [dupCikLongs, mem_dupScan_iff]
  simp

lemma uniqScan_mem_props :
    ∀ (rows : List RegRow) (seen : List String) (r : RegRow),
      r ∈ uniqScan seen rows →
      r.cik_long ∉ seen ∧
        rows.find? (fun x => x.cik_long == r.cik_long) = some r := by
  intro rows
  induction rows with
  | nil => intro seen r h; simp [uniqScan] at h
  | cons x rest ih =>
    intro seen r h
    by_cases hm : x.cik_long ∈ seen
    · rw [uniqScan, if_pos hm] at h
      obtain ⟨hnot, hfind⟩ := ih seen r h
      refine ⟨hnot, ?_⟩
      rw [List.find?_cons_of_neg, hfind]
      simp only [beq_iff_eq]
      intro heq
      exact hnot (heq ▸ hm)
    · rw [uniqScan, if_neg hm] at h
      rcases List.mem_cons.mp h with rfl | h'
      · refine ⟨hm, ?_⟩
        rw [List.find?_cons_of_pos]
        simp
      · obtain ⟨hnot, hfind⟩ := ih (x.cik_long :: seen) r h'
        have hne : x.cik_long ≠ r.cik_long := fun he =>
          hnot (by rw [← he]; exact List.mem_cons_self _ _)
        have hnotseen : r.cik_long ∉ seen := fun hs =>
          hnot (List.mem_cons_of_mem _ hs)
        refine ⟨hnotseen, ?_⟩
        rw [List.find?_cons_of_neg, hfind]
        simp [hne]

lemma uniqScan_nodup :
    ∀ (rows : List RegRow) (seen : List String),
      ((uniqScan seen rows).map (fun r => r.cik_long)).Nodup := by
  intro rows
  induction rows with
  | nil => intro seen; simp [uniqScan]
  | cons x rest ih =>
    intro seen
    by_cases hm : x.cik_long ∈ seen
    · rw [uniqScan, if_pos hm]
      exact ih seen
    · rw [uniqScan, if_neg hm]
      simp only [List.map_cons, List.nodup_cons]
      refine ⟨?_, ih _⟩
      intro hmem
      rcases List.mem_map.mp hmem with ⟨r, hr, hrc⟩
      exact (uniqScan_mem_props rest (x.cik_long :: seen) r hr).1
        (by rw [hrc]; exact List.mem_cons_self _ _)

lemma uniqScan_covers :
    ∀ (rows : List RegRow) (seen : List String) (r : RegRow), r ∈ rows →
      r.cik_long ∈ seen ∨
        r.cik_long ∈ (uniqScan seen rows).map (fun x => x.cik_long) := by
  intro rows
  induction rows with
  | nil => intro seen r h; simp at h
  | cons x rest ih =>
    intro seen r h
    by_cases hm : x.cik_long ∈ seen
    · rw [uniqScan, if_pos hm]
      rcases List.mem_cons.mp h with rfl | h'
      · exact Or.inl hm
      · exact ih seen r h'
    · rw [uniqScan, if_neg hm]
      rcases List.mem_cons.mp h with rfl | h'
      · exact Or.inr (by simp)
      · rcases ih (x.cik_long :: seen) r h' with hin | hin
        · rcases List.mem_cons.mp hin with heq | hin'
          · exact Or.inr (by simp [heq])
          · exact Or.inl hin'
        · exact Or.inr (by simp [hin])

lemma get_sec_company_information_ok_inv (reg : List RegRow)
    (fs : String → Option MetaDoc) (tbl : List (Nat × ProfileRow)) (n : Nat)
    (h : get_sec_company_information reg fs = .ok (tbl, n)) :
    tbl = ((usableFirsts reg fs).map (mkProfile fs (dupCikLongs reg))).enum := by
  unfold get_sec_company_information at h
  cases hloop : profileLoop fs (dupCikLongs reg) (unique_cik_companies reg) [] 0 with
  | error e =>
    rw [hloop] at h
    exact Except.noConfusion h
  | ok p =>
    obtain ⟨acc, m⟩ := p
    rw [hloop] at h
    by_cases hemp : acc.isEmpty
    · simp [hemp] at h
    · rw [Bool.not_eq_true] at hemp
      simp only [hemp, Bool.false_eq_true, if_false, Except.ok.injEq,
        Prod.mk.injEq] at h
      have hacc := profileLoop_ok_inv fs (dupCikLongs reg)
        (unique_cik_companies reg) [] 0 acc m hloop
      rw [← h.1, hacc, List.nil_append]
      rfl

lemma get_info_eq_of_loop_ok (reg : List RegRow)
    (fs : String → Option MetaDoc) (acc : List ProfileRow) (m : Nat)
    (hloop : profileLoop fs (dupCikLongs reg) (unique_cik_companies reg) [] 0 =
      .ok (acc, m))
    (hne : acc.isEmpty = false) :
    get_sec_company_information reg fs = .ok (acc.enum, m) := by
  unfold get_sec_company_information
  simp [hloop, hne]

lemma get_info_nameError_of_loop_empty (reg : List RegRow)
    (fs : String → Option MetaDoc) (m : Nat)
    (hloop : profileLoop fs (dupCikLongs reg) (unique_cik_companies reg) [] 0 =
      .ok ([], m)) :
    get_sec_company_information reg fs = .error .nameError := by
  unfold get_sec_company_information
  simp [hloop]

/-! ### Theorems -/

/-- C2: on the registry response with the single value-record
cik_str 320193, ticker AAPL, title Apple Inc., the code returns one row in
which the cik column holds the raw number 320193 and the cik_long column
holds the padded string 0000320193, which is not the row the specification
describes (cik padded, cik_long unpadded): the positional column relabeling
after the zfill assignment swaps the two derived columns. -/
theorem get_sec_companies_cik_columns_swapped :
    (get_sec_companies "first.last@org.com"
        [("0", ⟨320193, "AAPL", "Apple Inc."⟩)]).1 =
      ⟨["ticker", "title", "cik", "cik_long"],
       [(0, [Cell.str "AAPL", Cell.str "Apple Inc.",
             Cell.num 320193, Cell.str "0000320193"])]⟩ ∧
    registryRowSpec ⟨320193, "AAPL", "Apple Inc."⟩ =
      [Cell.str "AAPL", Cell.str "Apple Inc.",
       Cell.str "0000320193", Cell.str "320193"] ∧
    [Cell.str "AAPL", Cell.str "Apple Inc.",
     Cell.num 320193, Cell.str "0000320193"] ≠
      registryRowSpec ⟨320193, "AAPL", "Apple Inc."⟩ := by
  refine ⟨?_, ?_, ?_⟩ <;> decide

/-- C3: the outbound request of the registry lister carries the string
literal email as its User-Agent header value, not the identity argument:
at identity first.last@org.com the header value differs from the argument. -/
theorem get_sec_companies_user_agent_not_verbatim :
    (get_sec_companies "first.last@org.com" []).2 =
      [IOAction.httpGet "https://www.sec.gov/files/company_tickers.json"
        (some "email") []] ∧
    (some "email" : Option String) ≠ some "first.last@org.com" := by
  refine ⟨rfl, ?_⟩
  decide

/-- C8: supplying end_date without start_date makes the price fetcher raise
the usage error with an empty action trace, hence before any network
request. -/
theorem get_fmp_stock_data_end_without_start (apikey ticker : String)
    (start_date end_date : Option String) (resp : Option FmpResp)
    (hend : truthy end_date = true) (hstart : truthy start_date = false) :
    get_fmp_stock_data apikey ticker start_date end_date resp =
      (.error .usageError, []) := by
  unfold get_fmp_stock_data
  simp [hend, hstart]

/-- Witness for C8 at the concrete call of the specification:
end_date 2020-01-01, no start_date. -/
theorem get_fmp_stock_data_end_without_start_witness :
    truthy (some "2020-01-01") = true ∧
    truthy (none : Option String) = false ∧
    get_fmp_stock_data "key" "ABC" none (some "2020-01-01") none =
      (.error .usageError, []) :=
  ⟨rfl, rfl,
   get_fmp_stock_data_end_without_start "key" "ABC" none (some "2020-01-01")
     none rfl rfl⟩

/-! ### Filing assembler lemmas -/

instance : IsTrans (Nat × FilingRow) filingRecLe :=
  ⟨fun _ _ _ hab hbc => strLe_trans _ _ _ hab hbc⟩

instance : IsTotal (Nat × FilingRow) filingRecLe :=
  ⟨fun a b => Bool.or_eq_true_iff.mp (strLe_total _ _)⟩

lemma normalizeFilings_spec (acc : List (Nat × FilingRow)) :
    (normalizeFilings acc).length = acc.length ∧
    (normalizeFilings acc).map Prod.fst = List.range acc.length ∧
    List.Pairwise
      (fun a b => strLe a.acceptanceDateTime b.acceptanceDateTime = true)
      ((normalizeFilings acc).map Prod.snd) := by
  unfold normalizeFilings
  set S := acc.insertionSort filingRecLe with hS
  have hlen : S.length = acc.length := by
    rw [hS, List.length_insertionSort]
  refine ⟨?_, ?_, ?_⟩
  · rw [List.enum_length, List.length_map, hlen]
  · rw [List.enum_map_fst, List.length_map, hlen]
  · rw [List.enum_map_snd, List.pairwise_map]
    have hs : S.Pairwise filingRecLe := by
      rw [hS]
      exact List.sorted_insertionSort filingRecLe acc
    exact hs

lemma loadShardsLocal_ok (env : FilingsEnv) (dir : String)
    (pages : String → List FilingRow) (names : List String) :
    ∀ acc tr, (∀ n ∈ names, env.fileAt (joinPath dir n) = some (.page (pages n))) →
      loadShardsLocal env dir names acc tr =
        (.ok (acc ++ (names.map (fun n => filingsOf (pages n))).flatten),
         tr ++ names.map (fun n => IOAction.fileRead (joinPath dir n))) := by
  induction names with
  | nil => intro acc tr _; simp [loadShardsLocal]
  | cons name rest ih =>
    intro acc tr h
    have h1 := h name (List.mem_cons_self _ _)
    simp only [loadShardsLocal, h1]
    rw [ih (acc ++ filingsOf (pages name)) (tr ++ [IOAction.fileRead (joinPath dir name)])
      (fun n hn => h n (List.mem_cons_of_mem _ hn))]
    simp

lemma loadShardsLive_ok (env : FilingsEnv) (headers : Option String)
    (pages : String → List FilingRow) (names : List String) :
    ∀ acc tr,
      (∀ n ∈ names,
        env.urlAt ("https://data.sec.gov/submissions/" ++ n) = some (.page (pages n))) →
      loadShardsLive env headers names acc tr =
        (.ok (acc ++ (names.map (fun n => filingsOf (pages n))).flatten),
         tr ++ names.flatMap (fun n =>
           [IOAction.httpGet ("https://data.sec.gov/submissions/" ++ n) headers [],
            IOAction.sleep 100])) := by
  induction names with
  | nil => intro acc tr _; simp [loadShardsLive]
  | cons name rest ih =>
    intro acc tr h
    have h1 := h name (List.mem_cons_self _ _)
    simp only [loadShardsLive, h1]
    rw [ih (acc ++ filingsOf (pages name))
      (tr ++ [IOAction.httpGet ("https://data.sec.gov/submissions/" ++ name) headers [],
              IOAction.sleep 100])
      (fun n hn => h n (List.mem_cons_of_mem _ hn))]
    simp

lemma loadShardsLocal_trace_no_http (env : FilingsEnv) (dir : String)
    (names : List String) :
    ∀ acc tr, (∀ a ∈ tr, a.isHttp = false) →
      ∀ a ∈ (loadShardsLocal env dir names acc tr).2, a.isHttp = false := by
  induction names with
  | nil => intro acc tr h; simpa [loadShardsLocal] using h
  | cons name rest ih =>
    intro acc tr h
    have hext : ∀ a ∈ tr ++ [IOAction.fileRead (joinPath dir name)], a.isHttp = false := by
      intro a ha
      rcases List.mem_append.mp ha with ha | ha
      · exact h a ha
      · rcases List.mem_singleton.mp ha with rfl
        rfl
    rw [loadShardsLocal]
    cases henv : env.fileAt (joinPath dir name) with
    | none => simpa using hext
    | some doc =>
      cases doc with
      | main recent files => simpa using hext
      | page rows => exact ih _ _ hext

/-- C9: whenever the price fetcher returns a table from a response with a
historical array, the table has exactly the six output columns and no date
column, its index is the contiguous sequence 0..n-1, and its rows are the
six-column projections of the response records arranged in an order whose
date cells are non-decreasing. -/
theorem get_fmp_stock_data_output_shape (apikey ticker : String)
    (start_date end_date : Option String) (body : FmpResp) (df : DF)
    (hdate : "date" ∈ body.histCols)
    (h : (get_fmp_stock_data apikey ticker start_date end_date (some body)).1 =
      .ok df) :
    df.cols = fmpOutCols ∧
    "date" ∉ fmpOutCols ∧
    df.rows.map Prod.fst = List.range body.histRecs.length ∧
    ∃ recs, recs.Perm body.histRecs ∧
      List.Pairwise (fun a b =>
        Cell.le (DF.keyCell body.histCols "date" a)
          (DF.keyCell body.histCols "date" b) = true) recs ∧
      df.rows.map Prod.snd = recs.map (DF.projectRow body.histCols fmpOutCols) := by
  by_cases hc : (truthy end_date && !truthy start_date) = true
  · simp only [get_fmp_stock_data, hc, if_true] at h
    exact absurd h (by simp)
  · rw [Bool.not_eq_true] at hc
    simp only [get_fmp_stock_data, hc, Bool.false_eq_true, if_false,
      DF.ofRecords, DF.sortValues, DF.resetIndex, DF.select,
      Except.ok.injEq] at h
    subst h
    set leFn : (Nat × List Cell) → (Nat × List Cell) → Prop := fun a b =>
      Cell.le (DF.keyCell body.histCols "date" a.2)
        (DF.keyCell body.histCols "date" b.2) = true with hleFn
    haveI : IsTrans (Nat × List Cell) leFn :=
      ⟨fun a b c hab hbc => Cell.le_trans _ _ _ hab hbc⟩
    haveI : IsTotal (Nat × List Cell) leFn :=
      ⟨fun a b => by
        have := Cell.le_total_bool (DF.keyCell body.histCols "date" a.2)
          (DF.keyCell body.histCols "date" b.2)
        rcases Bool.or_eq_true_iff.mp this with h1 | h1
        · exact Or.inl h1
        · exact Or.inr h1⟩
    set S : List (Nat × List Cell) := body.histRecs.enum.insertionSort leFn with hS
    set X : List (List Cell) := S.map Prod.snd with hX
    have hXlen : X.length = body.histRecs.length := by
      rw [hX, List.length_map, hS, List.length_insertionSort, List.enum_length]
    refine ⟨rfl, by decide, ?_, ?_⟩
    · rw [map_fst_enum_map, hXlen]
    · refine ⟨X, ?_, ?_, ?_⟩
      · have hperm : S.Perm body.histRecs.enum := List.perm_insertionSort _ _
        have := hperm.map Prod.snd
        rwa [List.enum_map_snd] at this
      · have hs : S.Pairwise leFn := by
          rw [hS]
          exact List.sorted_insertionSort leFn body.histRecs.enum
        rw [hX, List.pairwise_map]
        exact hs
      · exact map_snd_enum_map X _

/-- A concrete mocked provider response with two bars out of date order. -/
def fmpDemoResp : FmpResp :=
  ⟨["date", "open", "high", "low", "close", "adjClose", "volume"],
   [[Cell.str "2020-01-03", Cell.num 11, Cell.num 12, Cell.num 10,
     Cell.num 11, Cell.num 11, Cell.num 500],
    [Cell.str "2020-01-02", Cell.num 1, Cell.num 2, Cell.num 0,
     Cell.num 1, Cell.num 1, Cell.num 400]]⟩

/-- The table the price fetcher returns on the mocked response: the bars in
ascending date order, dates dropped, index reset. -/
def fmpDemoOut : DF :=
  ⟨["open", "high", "low", "close", "adjClose", "volume"],
   [(0, [Cell.num 1, Cell.num 2, Cell.num 0, Cell.num 1, Cell.num 1,
         Cell.num 400]),
    (1, [Cell.num 11, Cell.num 12, Cell.num 10, Cell.num 11, Cell.num 11,
         Cell.num 500])]⟩

/-- Witness for C9 on the mocked response. -/
theorem get_fmp_stock_data_output_shape_witness :
    "date" ∈ fmpDemoResp.histCols ∧
    (get_fmp_stock_data "k" "ABC" none none (some fmpDemoResp)).1 =
      .ok fmpDemoOut ∧
    (fmpDemoOut.cols = fmpOutCols ∧
     "date" ∉ fmpOutCols ∧
     fmpDemoOut.rows.map Prod.fst = List.range fmpDemoResp.histRecs.length ∧
     ∃ recs, recs.Perm fmpDemoResp.histRecs ∧
       List.Pairwise (fun a b =>
         Cell.le (DF.keyCell fmpDemoResp.histCols "date" a)
           (DF.keyCell fmpDemoResp.histCols "date" b) = true) recs ∧
       fmpDemoOut.rows.map Prod.snd =
         recs.map (DF.projectRow fmpDemoResp.histCols fmpOutCols)) :=
  ⟨by decide, by decide,
   get_fmp_stock_data_output_shape "k" "ABC" none none fmpDemoResp fmpDemoOut
     (by decide) (by decide)⟩

/-- C1: in both local-file and live-fetch mode, a seed recent page together
with the shard pages named by the primary document assembles into a table
with exactly N plus the sum of the shard sizes rows, whose index is the
contiguous sequence 0..total-1 and whose rows are in non-decreasing
acceptanceDateTime order. -/
theorem list_filings_assembled (cik dir : String) (email : Option String)
    (env : FilingsEnv) (recent : List FilingRow) (files : List String)
    (pages : String → List FilingRow) :
    (cik.length = 10 → dir ≠ "" →
      env.fileAt (joinPath dir ("CIK" ++ cik ++ ".json")) =
        some (.main recent files) →
      (∀ n ∈ files, env.fileAt (joinPath dir n) = some (.page (pages n))) →
      ∃ tbl, (get_seccompany_filings cik (some dir) email env).1 = .ok tbl ∧
        tbl.length = recent.length + (files.map (fun n => (pages n).length)).sum ∧
        tbl.map Prod.fst =
          List.range (recent.length + (files.map (fun n => (pages n).length)).sum) ∧
        List.Pairwise
          (fun a b => strLe a.acceptanceDateTime b.acceptanceDateTime = true)
          (tbl.map Prod.snd)) ∧
    (cik.length = 10 → truthy email = true →
      env.urlAt ("https://data.sec.gov/submissions/CIK" ++ cik ++ ".json") =
        some (.main recent files) →
      (∀ n ∈ files,
        env.urlAt ("https://data.sec.gov/submissions/" ++ n) =
          some (.page (pages n))) →
      ∃ tbl, (get_seccompany_filings cik none email env).1 = .ok tbl ∧
        tbl.length = recent.length + (files.map (fun n => (pages n).length)).sum ∧
        tbl.map Prod.fst =
          List.range (recent.length + (files.map (fun n => (pages n).length)).sum) ∧
        List.Pairwise
          (fun a b => strLe a.acceptanceDateTime b.acceptanceDateTime = true)
          (tbl.map Prod.snd)) := by
  have hacclen : ∀ acc0 : List (Nat × FilingRow), acc0 = filingsOf recent →
      (acc0 ++ (files.map (fun n => filingsOf (pages n))).flatten).length =
        recent.length + (files.map (fun n => (pages n).length)).sum := by
    intro acc0 h0
    subst h0
    simp only [filingsOf, List.length_append, List.enum_length,
      List.length_flatten, List.map_map]
    have hm : List.map (List.length ∘ fun n => (pages n).enum) files =
        List.map (fun n => (pages n).length) files := by
      apply List.map_congr_left
      intro n _
      simp [Function.comp, List.enum_length]
    rw [hm]
  constructor
  · intro hlen hdir hmain hpages
    have hnotempty : truthy (some dir) = true := by
      simp only [truthy, Bool.not_eq_true']
      rcases hq : dir.isEmpty with _ | _
      · rfl
      · exact absurd ((String.isEmpty_iff dir).mp hq) hdir
    refine ⟨normalizeFilings
      (filingsOf recent ++ (files.map (fun n => filingsOf (pages n))).flatten),
      ?_, ?_, ?_, ?_⟩
    · simp only [get_seccompany_filings, hlen, ne_eq, not_true_eq_false,
        if_false, hnotempty, Bool.not_true, Bool.false_and,
        Bool.false_eq_true, if_true, Option.getD_some, hmain]
      rw [loadShardsLocal_ok env dir pages files _ _ hpages]
    · rw [(normalizeFilings_spec _).1, hacclen _ rfl]
    · rw [(normalizeFilings_spec _).2.1, hacclen _ rfl]
    · exact (normalizeFilings_spec _).2.2
  · intro hlen hemail hmain hpages
    refine ⟨normalizeFilings
      (filingsOf recent ++ (files.map (fun n => filingsOf (pages n))).flatten),
      ?_, ?_, ?_, ?_⟩
    · have hcond : (!truthy (none : Option String) && !truthy email) = false := by
        rw [hemail]
        rfl
      simp only [get_seccompany_filings, hlen, ne_eq, not_true_eq_false,
        if_false, hcond, Bool.false_eq_true, hmain]
      rw [loadShardsLive_ok env email pages files _ _ hpages]
      simp [truthy]
    · rw [(normalizeFilings_spec _).1, hacclen _ rfl]
    · rw [(normalizeFilings_spec _).2.1, hacclen _ rfl]
    · exact (normalizeFilings_spec _).2.2

/-- A two-row recent page for the concrete scenario of the specification. -/
def demoRecent : List FilingRow :=
  [⟨"2021-05-01T10:00:00.000Z", [("form", Cell.str "10-K")]⟩,
   ⟨"2019-03-01T10:00:00.000Z", [("form", Cell.str "10-Q")]⟩]

/-- A three-row overflow shard page for the concrete scenario. -/
def demoShard : List FilingRow :=
  [⟨"2020-01-01T10:00:00.000Z", []⟩,
   ⟨"2018-01-01T10:00:00.000Z", []⟩,
   ⟨"2022-01-01T10:00:00.000Z", []⟩]

/-- A concrete world holding the primary document and one shard, both as a
local directory named subs and behind the live endpoint. -/
def demoFilingsEnv : FilingsEnv :=
  ⟨fun path =>
    if path = "subs/CIK0000320193.json" then
      some (.main demoRecent ["CIK0000320193-001.json"])
    else if path = "subs/CIK0000320193-001.json" then
      some (.page demoShard)
    else none,
   fun url =>
    if url = "https://data.sec.gov/submissions/CIK0000320193.json" then
      some (.main demoRecent ["CIK0000320193-001.json"])
    else if url = "https://data.sec.gov/submissions/CIK0000320193-001.json" then
      some (.page demoShard)
    else none⟩

/-- Witness for C1: the 2-row recent page plus the 3-row shard assemble
into 5 sorted rows with index 0..4, in both modes. -/
theorem list_filings_assembled_witness :
    (∃ tbl,
      (get_seccompany_filings "0000320193" (some "subs") (some "me@x.com")
        demoFilingsEnv).1 = .ok tbl ∧
      tbl.length = 5 ∧
      tbl.map Prod.fst = List.range 5 ∧
      List.Pairwise
        (fun a b => strLe a.acceptanceDateTime b.acceptanceDateTime = true)
        (tbl.map Prod.snd)) ∧
    (∃ tbl,
      (get_seccompany_filings "0000320193" none (some "me@x.com")
        demoFilingsEnv).1 = .ok tbl ∧
      tbl.length = 5 ∧
      tbl.map Prod.fst = List.range 5 ∧
      List.Pairwise
        (fun a b => strLe a.acceptanceDateTime b.acceptanceDateTime = true)
        (tbl.map Prod.snd)) :=
  ⟨(list_filings_assembled "0000320193" "subs" (some "me@x.com") demoFilingsEnv
      demoRecent ["CIK0000320193-001.json"] (fun _ => demoShard)).1
      rfl (by decide) (by decide) (by decide),
   (list_filings_assembled "0000320193" "subs" (some "me@x.com") demoFilingsEnv
      demoRecent ["CIK0000320193-001.json"] (fun _ => demoShard)).2
      rfl rfl (by decide) (by decide)⟩

/-- C7: a cik that is not 10 characters long, or a call with both data
sources absent, raises the usage error with an empty action trace, hence
before any I/O; when a submission directory is supplied, the call behaves
exactly as if no identity had been supplied, and its action trace contains
no HTTP request. -/
theorem list_filings_preconditions (cik : String)
    (submission_dir email : Option String) (env : FilingsEnv) :
    (cik.length ≠ 10 →
      get_seccompany_filings cik submission_dir email env =
        (.error .usageError, [])) ∧
    (truthy submission_dir = false → truthy email = false →
      get_seccompany_filings cik submission_dir email env =
        (.error .usageError, [])) ∧
    (truthy submission_dir = true →
      get_seccompany_filings cik submission_dir email env =
        get_seccompany_filings cik submission_dir none env ∧
      ∀ a ∈ (get_seccompany_filings cik submission_dir email env).2,
        a.isHttp = false) := by
  refine ⟨?_, ?_, ?_⟩
  · intro hlen
    simp [get_seccompany_filings, hlen]
  · intro hsd hem
    by_cases hlen : cik.length = 10
    · simp [get_seccompany_filings, hlen, hsd, hem]
    · simp [get_seccompany_filings, hlen]
  · intro hsd
    by_cases hlen : cik.length = 10
    · constructor
      · simp only [get_seccompany_filings, hlen, ne_eq, not_true_eq_false,
          if_false, hsd, Bool.not_true, Bool.false_and, Bool.false_eq_true,
          if_true]
      · simp only [get_seccompany_filings, hlen, ne_eq, not_true_eq_false,
          if_false, hsd, Bool.not_true, Bool.false_and, Bool.false_eq_true,
          if_true]
        cases henv : env.fileAt
            (joinPath (submission_dir.getD "") ("CIK" ++ cik ++ ".json")) with
        | none =>
          intro a ha
          rcases List.mem_singleton.mp ha with rfl
          rfl
        | some doc =>
          cases doc with
          | page rows =>
            intro a ha
            rcases List.mem_singleton.mp ha with rfl
            rfl
          | main recent files =>
            simp only []
            have htr : ∀ a ∈ (loadShardsLocal env (submission_dir.getD "")
                files (filingsOf recent)
                [IOAction.fileRead (joinPath (submission_dir.getD "")
                  ("CIK" ++ cik ++ ".json"))]).2, a.isHttp = false := by
              apply loadShardsLocal_trace_no_http
              intro a ha
              rcases List.mem_singleton.mp ha with rfl
              rfl
            rcases hload : loadShardsLocal env (submission_dir.getD "") files
                (filingsOf recent)
                [IOAction.fileRead (joinPath (submission_dir.getD "")
                  ("CIK" ++ cik ++ ".json"))] with ⟨res, tr⟩
            rw [hload] at htr
            cases res with
            | ok acc => simpa using htr
            | error e => simpa using htr
    · constructor
      · simp [get_seccompany_filings, hlen]
      · simp [get_seccompany_filings, hlen]

/-- Witness for C7: a short cik is rejected, a call with neither source is
rejected, and a call with both sources runs locally with no HTTP action. -/
theorem list_filings_preconditions_witness :
    (("123" : String).length ≠ 10 ∧
      get_seccompany_filings "123" (some "subs") (some "me@x.com")
        demoFilingsEnv = (.error .usageError, [])) ∧
    (truthy (none : Option String) = false ∧
      get_seccompany_filings "0000320193" none none demoFilingsEnv =
        (.error .usageError, [])) ∧
    (truthy (some "subs") = true ∧
      get_seccompany_filings "0000320193" (some "subs") (some "me@x.com")
          demoFilingsEnv =
        get_seccompany_filings "0000320193" (some "subs") none demoFilingsEnv ∧
      ∀ a ∈ (get_seccompany_filings "0000320193" (some "subs")
          (some "me@x.com") demoFilingsEnv).2, a.isHttp = false) :=
  ⟨⟨by decide,
    (list_filings_preconditions "123" (some "subs") (some "me@x.com")
      demoFilingsEnv).1 (by decide)⟩,
   ⟨rfl,
    (list_filings_preconditions "0000320193" none none demoFilingsEnv).2.1
      rfl rfl⟩,
   rfl,
   (list_filings_preconditions "0000320193" (some "subs") (some "me@x.com")
      demoFilingsEnv).2.2 rfl⟩

/-- C4: in a returned profile table, the i-th row belongs to the i-th
usable unique entity, and its has_multiple_symbols flag is true exactly
when that entity's cik_long occurs at least twice in the input registry
table. -/
theorem extract_profiles_has_multiple_symbols (reg : List RegRow)
    (fs : String → Option MetaDoc) (tbl : List (Nat × ProfileRow)) (n : Nat)
    (h : get_sec_company_information reg fs = .ok (tbl, n)) :
    List.Forall₂
      (fun (p : ProfileRow) (r : RegRow) =>
        p.has_multiple_symbols =
          decide (2 ≤ reg.countP (fun x => x.cik_long == r.cik_long)))
      (tbl.map Prod.snd) (usableFirsts reg fs) := by
  rw [get_sec_company_information_ok_inv reg fs tbl n h, List.enum_map_snd,
    List.forall₂_map_left_iff, List.forall₂_same]
  intro r _
  show (mkProfile fs (dupCikLongs reg) r).has_multiple_symbols =
    decide (2 ≤ reg.countP (fun x => x.cik_long == r.cik_long))
  rw [mkProfile]
  rw [decide_eq_decide]
  exact mem_dupCikLongs_iff reg r.cik_long

/-- C5: a returned profile table has a contiguous zero-based index, its
rows are exactly one profile per usable unique entity in order, the
cik_long values of those entities are pairwise distinct, each chosen entity
row is the first occurrence of its cik_long in the registry table, and
every registry entity with usable metadata is represented. -/
theorem extract_profiles_one_row_per_entity (reg : List RegRow)
    (fs : String → Option MetaDoc) (tbl : List (Nat × ProfileRow)) (n : Nat)
    (h : get_sec_company_information reg fs = .ok (tbl, n)) :
    tbl.map Prod.fst = List.range tbl.length ∧
    tbl.map Prod.snd =
      (usableFirsts reg fs).map (mkProfile fs (dupCikLongs reg)) ∧
    ((usableFirsts reg fs).map (fun r => r.cik_long)).Nodup ∧
    (∀ r ∈ usableFirsts reg fs,
      reg.find? (fun x => x.cik_long == r.cik_long) = some r) ∧
    (∀ r ∈ reg, metaUsable fs r = true →
      r.cik_long ∈ (usableFirsts reg fs).map (fun x => x.cik_long)) := by
  have hi := get_sec_company_information_ok_inv reg fs tbl n h
  refine ⟨?_, ?_, ?_, ?_, ?_⟩
  · rw [hi, List.enum_map_fst, List.enum_length]
  · rw [hi, List.enum_map_snd]
  · have hsub : ((usableFirsts reg fs).map (fun r => r.cik_long)).Sublist
        ((unique_cik_companies reg).map (fun r => r.cik_long)) :=
      List.Sublist.map (fun r => r.cik_long)
        (List.filter_sublist (unique_cik_companies reg))
    exact (uniqScan_nodup reg []).sublist hsub
  · intro r hr
    exact (uniqScan_mem_props reg [] r (List.mem_of_mem_filter hr)).2
  · intro r hr hus
    rcases uniqScan_covers reg [] r hr with hin | hin
    · simp at hin
    · rcases List.mem_map.mp hin with ⟨u, hu, huc⟩
      have hfe : metaFile u = metaFile r := by
        rw [metaFile, metaFile, huc]
      have husu : metaUsable fs u = true := by
        unfold metaUsable at hus ⊢
        rw [hfe]
        exact hus
      exact List.mem_map.mpr ⟨u, List.mem_filter.mpr ⟨hu, husu⟩, huc⟩

/-- C6: with every present metadata document well formed, a missing file
for any entity of the unique working set makes the whole batch fail with
the file-not-found error, whereas when every file is present, entities
whose filtered document has zero rows are merely skipped and counted while
the others produce the profile table. -/
theorem extract_profiles_missing_fatal_empty_skipped (reg : List RegRow)
    (fs : String → Option MetaDoc) :
    ((∀ r ∈ unique_cik_companies reg, metaParses fs r = true) →
     (∃ r ∈ unique_cik_companies reg, fs (metaFile r) = none) →
     get_sec_company_information reg fs = .error .ioError) ∧
    ((∀ r ∈ unique_cik_companies reg, metaPresentOk fs r = true) →
     (∃ r ∈ unique_cik_companies reg, metaUsable fs r = true) →
     get_sec_company_information reg fs =
       .ok (((usableFirsts reg fs).map (mkProfile fs (dupCikLongs reg))).enum,
            (unique_cik_companies reg).countP (fun r => metaEmptyRecord fs r))) := by
  constructor
  · intro hall hex
    unfold get_sec_company_information
    rw [profileLoop_missing fs (dupCikLongs reg) (unique_cik_companies reg)
      [] 0 hall hex]
  · intro hall hex
    have hloop := profileLoop_ok_of_present fs (dupCikLongs reg)
      (unique_cik_companies reg) [] 0 hall
    rw [List.nil_append, Nat.zero_add] at hloop
    have hne : ((unique_cik_companies reg).filter (metaUsable fs)).map
        (mkProfile fs (dupCikLongs reg)) ≠ [] := by
      rcases hex with ⟨r, hr, hus⟩
      exact List.ne_nil_of_mem
        (List.mem_map.mpr ⟨r, List.mem_filter.mpr ⟨hr, hus⟩, rfl⟩)
    have hemp : (((unique_cik_companies reg).filter (metaUsable fs)).map
        (mkProfile fs (dupCikLongs reg))).isEmpty = false := by
      rcases hq : (((unique_cik_companies reg).filter (metaUsable fs)).map
          (mkProfile fs (dupCikLongs reg))).isEmpty with _ | _
      · rfl
      · exact absurd (List.isEmpty_iff.mp hq) hne
    rw [get_info_eq_of_loop_ok reg fs _ _ hloop hemp]
    have hcnt : (unique_cik_companies reg).countP
        (fun r => !metaUsable fs r) =
      (unique_cik_companies reg).countP (fun r => metaEmptyRecord fs r) := by
      apply List.countP_congr
      intro r hr
      have hp := hall r hr
      cases hfs : fs (metaFile r) with
      | none =>
        simp [metaPresentOk, hfs] at hp
      | some doc =>
        cases hdf : dfRows (metaFiltered doc) with
        | error e =>
          simp [metaPresentOk, hfs, hdf] at hp
        | ok m =>
          cases m with
          | zero =>
            simp [metaUsable, metaEmptyRecord, hfs, hdf]
          | succ m' =>
            simp [metaUsable, metaEmptyRecord, hfs, hdf]
    rw [hcnt]
    rfl

/-- C10: on an empty registry table, or when every entity of the unique
working set is skipped as an empty record, the extractor neither returns an
empty table nor raises a usage error: the accumulator variable was never
bound, and the final reset-index step fails with the name-resolution
error. -/
theorem extract_profiles_unbound_accumulator (reg : List RegRow)
    (fs : String → Option MetaDoc) :
    (reg = [] → get_sec_company_information reg fs = .error .nameError) ∧
    ((∀ r ∈ unique_cik_companies reg, metaEmptyRecord fs r = true) →
     get_sec_company_information reg fs = .error .nameError) := by
  constructor
  · intro h
    subst h
    rfl
  · intro hall
    exact get_info_nameError_of_loop_empty reg fs _
      (profileLoop_all_empty fs (dupCikLongs reg) (unique_cik_companies reg)
        [] 0 hall)

/-- Demo registry: the first entity appears under two ticker symbols, the
second under one. -/
def demoReg : List RegRow :=
  [⟨"A", "Alpha Corp", "0000000001", "1"⟩,
   ⟨"AA", "Alpha Corp", "0000000001", "1"⟩,
   ⟨"C", "Gamma Corp", "0000000002", "2"⟩]

/-- Demo metadata document of the first entity, with a usable record. -/
def demoDoc1 : MetaDoc :=
  [("cik", .scalar (Cell.num 1)),
   ("name", .scalar (Cell.str "Alpha Corp")),
   ("tickers", .arr [Cell.str "A", Cell.str "AA"]),
   ("sic", .scalar (Cell.str "3571"))]

/-- Demo metadata document of the second entity, with a usable record. -/
def demoDoc2 : MetaDoc :=
  [("cik", .scalar (Cell.num 2)),
   ("name", .scalar (Cell.str "Gamma Corp")),
   ("tickers", .arr [Cell.str "C"])]

/-- Demo metadata document that is present but yields zero extractable
rows: its only array field is empty. -/
def demoDocEmpty : MetaDoc :=
  [("name", .scalar (Cell.str "Empty Co")),
   ("tickers", .arr [])]

/-- Demo submission directory with a usable document per entity. -/
def demoFs : String → Option MetaDoc := fun name =>
  if name = "CIK1.json" then some demoDoc1
  else if name = "CIK2.json" then some demoDoc2
  else none

/-- Demo submission directory with the second entity's file missing. -/
def demoFsMissing : String → Option MetaDoc := fun name =>
  if name = "CIK1.json" then some demoDoc1 else none

/-- Demo submission directory where the second entity's file is present
but holds zero extractable rows. -/
def demoFsEmpty2 : String → Option MetaDoc := fun name =>
  if name = "CIK1.json" then some demoDoc1
  else if name = "CIK2.json" then some demoDocEmpty
  else none

/-- Demo submission directory where every file holds zero extractable
rows. -/
def demoFsAllEmpty : String → Option MetaDoc := fun name =>
  if name = "CIK1.json" then some demoDocEmpty
  else if name = "CIK2.json" then some demoDocEmpty
  else none

/-- The profile table the extractor returns on the demo registry and the
usable demo directory. -/
def demoTbl : List (Nat × ProfileRow) :=
  [(0, ⟨[("cik", Cell.num 1), ("name", Cell.str "Alpha Corp"),
         ("tickers", Cell.str "A"), ("sic", Cell.str "3571")], true⟩),
   (1, ⟨[("cik", Cell.num 2), ("name", Cell.str "Gamma Corp"),
         ("tickers", Cell.str "C")], false⟩)]

/-- Witness for C4 on the demo registry: the two-symbol entity gets the
flag true, the one-symbol entity gets false. -/
theorem extract_profiles_has_multiple_symbols_witness :
    get_sec_company_information demoReg demoFs = .ok (demoTbl, 0) ∧
    List.Forall₂
      (fun (p : ProfileRow) (r : RegRow) =>
        p.has_multiple_symbols =
          decide (2 ≤ demoReg.countP (fun x => x.cik_long == r.cik_long)))
      (demoTbl.map Prod.snd) (usableFirsts demoReg demoFs) :=
  ⟨by decide,
   extract_profiles_has_multiple_symbols demoReg demoFs demoTbl 0 (by decide)⟩

/-- Witness for C5 on the demo registry. -/
theorem extract_profiles_one_row_per_entity_witness :
    get_sec_company_information demoReg demoFs = .ok (demoTbl, 0) ∧
    (demoTbl.map Prod.fst = List.range demoTbl.length ∧
     demoTbl.map Prod.snd =
       (usableFirsts demoReg demoFs).map (mkProfile demoFs (dupCikLongs demoReg)) ∧
     ((usableFirsts demoReg demoFs).map (fun r => r.cik_long)).Nodup ∧
     (∀ r ∈ usableFirsts demoReg demoFs,
       demoReg.find? (fun x => x.cik_long == r.cik_long) = some r) ∧
     (∀ r ∈ demoReg, metaUsable demoFs r = true →
       r.cik_long ∈ (usableFirsts demoReg demoFs).map (fun x => x.cik_long))) :=
  ⟨by decide,
   extract_profiles_one_row_per_entity demoReg demoFs demoTbl 0 (by decide)⟩

/-- Witness for C6: with the second entity's file missing the batch fails
with the file-not-found error, while with that file present but empty the
entity is skipped and counted. -/
theorem extract_profiles_missing_fatal_empty_skipped_witness :
    ((∀ r ∈ unique_cik_companies demoReg, metaParses demoFsMissing r = true) ∧
     (∃ r ∈ unique_cik_companies demoReg, demoFsMissing (metaFile r) = none) ∧
     get_sec_company_information demoReg demoFsMissing = .error .ioError) ∧
    ((∀ r ∈ unique_cik_companies demoReg, metaPresentOk demoFsEmpty2 r = true) ∧
     (∃ r ∈ unique_cik_companies demoReg, metaUsable demoFsEmpty2 r = true) ∧
     get_sec_company_information demoReg demoFsEmpty2 =
       .ok (((usableFirsts demoReg demoFsEmpty2).map
               (mkProfile demoFsEmpty2 (dupCikLongs demoReg))).enum,
            (unique_cik_companies demoReg).countP
              (fun r => metaEmptyRecord demoFsEmpty2 r))) :=
  ⟨⟨by decide, by decide,
    (extract_profiles_missing_fatal_empty_skipped demoReg demoFsMissing).1
      (by decide) (by decide)⟩,
   ⟨by decide, by decide,
    (extract_profiles_missing_fatal_empty_skipped demoReg demoFsEmpty2).2
      (by decide) (by decide)⟩⟩

/-- Witness for C10: the empty registry, and the demo registry with every
document empty of extractable rows, both end in the name-resolution
error. -/
theorem extract_profiles_unbound_accumulator_witness :
    get_sec_company_information [] demoFs = .error .nameError ∧
    ((∀ r ∈ unique_cik_companies demoReg,
        metaEmptyRecord demoFsAllEmpty r = true) ∧
     get_sec_company_information demoReg demoFsAllEmpty = .error .nameError) :=
  ⟨(extract_profiles_unbound_accumulator [] demoFs).1 rfl,
   by decide,
   (extract_profiles_unbound_accumulator demoReg demoFsAllEmpty).2 (by decide)⟩

end Fda
